import Mathlib

set_option linter.unusedVariables false

/-!
Verification of the core of `select_audio_output.py`.

Shallow embedding conventions:
* Python strings are modelled as their lists of Unicode code points
  (`PyStr := List Nat`); `str.lower` is modelled on the ASCII letter
  range, the case mapping exercised by the device names here.
* The floats produced by `difflib` are modelled exactly: a ratio is
  carried as the integer pair `(matches, length)` that determines it,
  comparisons (against the `0.3` cutoff and between scores) are decided
  by integer cross-multiplication, and `ratVal` gives the rational
  value for the statements.  For the string lengths handled by the
  program the IEEE float comparisons coincide with these exact ones.
* The external audio backend reached through `osascript` is modelled as
  an explicit state record (`Backend`).  Each backend command family
  (volume read, volume write, mute read, mute write) probes its own
  ordered list of equivalent commands, so each family independently
  either succeeds (acting on the stored state) or fails, as indicated
  by its availability flag; attempted writes are recorded in a trace.
-/

/-- A Python string as its list of code points. -/
abbrev PyStr := List Nat

/-- Code points of a Lean string literal (used to write concrete inputs). -/
def S (s : String) : PyStr := s.data.map Char.toNat

/-- `str.lower` on one code point (ASCII letters). -/
def lowerChar (c : Nat) : Nat := if 65 ≤ c ∧ c ≤ 90 then c + 32 else c

/-- `str.lower`. -/
def lower (s : PyStr) : PyStr := s.map lowerChar

/-! ### The `difflib` fuzzy tier

`find_closest_device` falls back to
`difflib.get_close_matches(name, devices, n=3, cutoff=0.3)`.  There a
`SequenceMatcher` is created with `isjunk=None` and `autojunk=True`,
`set_seq2(word)` (the query) and, per candidate, `set_seq1(x)` (the
device name); candidates pass the guard chain
`real_quick_ratio() >= cutoff and quick_ratio() >= cutoff and
ratio() >= cutoff` and are ranked by `heapq.nlargest(n, (ratio, x))`.
The definitions below embed that algorithm. -/

/-- `SequenceMatcher.__chain_b` autojunk test: with `autojunk=True`, an
element of `b` is "popular" when `len(b) >= 200` and it occurs more than
`len(b) // 100 + 1` times in `b`.  Popular elements are removed from the
`b2j` index. -/
def popularB (b : PyStr) (c : Nat) : Bool :=
  decide (200 ≤ b.length) && decide (b.length / 100 + 1 < b.count c)

/-- `isjunk` is `None` in `get_close_matches`, so the junk set `bjunk`
is empty. -/
def bjunk (c : Nat) : Bool := false

/-- The positions `j` visited by `for j in b2j.get(a[i], [])` inside
`find_longest_match`, after the `if j < blo: continue` /
`if j >= bhi: break` window filtering (`b2j[c]` lists the positions of
`c` in `b` in increasing order, with popular elements removed, and the
`break` drops exactly the positions `>= bhi`). -/
def b2jWin (b : PyStr) (c : Nat) (blo bhi : Nat) : List Nat :=
  ((List.range b.length).filter
      (fun j => decide (b.getD j 0 = c ∧ popularB b c = false))).filter
    (fun j => decide (blo ≤ j ∧ j < bhi))

/-- Loop state of `find_longest_match`: the current `j2len` row as a
total function (absent dictionary keys give `0`) and the best match so
far. -/
structure FlmState where
  j2len : Nat → Nat
  besti : Nat
  bestj : Nat
  bestsize : Nat

/-- The new `j2len` row built while processing `a[i]`:
`newj2len[j] = j2lenget(j - 1, 0) + 1` at each indexed window position
of `a[i]` (where `j2lenget` reads the previous row `f`, and `j - 1 = -1`
is absent from the dictionary), `0` (absent) elsewhere. -/
def njRow (a b : PyStr) (blo bhi : Nat) (f : Nat → Nat) (i : Nat) : Nat → Nat :=
  fun j =>
    if b.getD j 0 = a.getD i 0 ∧ popularB b (a.getD i 0) = false ∧ blo ≤ j ∧ j < bhi then
      (if j = 0 then 0 else f (j - 1)) + 1
    else 0

/-- The best-triple update `if k > bestsize: besti, bestj, bestsize =
i-k+1, j-k+1, k` performed at each window position `j`. -/
def bestUpd (nj : Nat → Nat) (i : Nat) (best : Nat × Nat × Nat) (j : Nat) :
    Nat × Nat × Nat :=
  let k := nj j
  if best.2.2 < k then (i + 1 - k, j + 1 - k, k) else best

/-- One iteration (one value of `i`) of the outer loop of
`SequenceMatcher.find_longest_match`: build the new row, and update the
best triple over the window positions of `a[i]` in increasing order. -/
def flmStep (a b : PyStr) (blo bhi : Nat) (st : FlmState) (i : Nat) : FlmState :=
  let nj := njRow a b blo bhi st.j2len i
  let best :=
    (b2jWin b (a.getD i 0) blo bhi).foldl (bestUpd nj i)
      (st.besti, st.bestj, st.bestsize)
  ⟨nj, best.1, best.2.1, best.2.2⟩

/-- The outer `for i in range(alo, ahi)` loop of `find_longest_match`:
`n` iterations starting at index `i`. -/
def flmLoop (a b : PyStr) (blo bhi : Nat) : Nat → Nat → FlmState → FlmState
  | _, 0, st => st
  | i, n + 1, st => flmLoop a b blo bhi (i + 1) n (flmStep a b blo bhi st i)

/-- First widening loop of `find_longest_match`: extend the best match
leftwards over equal non-junk elements.  The fuel bounds the number of
iterations (`besti` strictly decreases, so `besti` iterations suffice). -/
def extLeft (a b : PyStr) (alo blo : Nat) : Nat → Nat × Nat × Nat → Nat × Nat × Nat
  | 0, r => r
  | fuel + 1, (bi, bj, bs) =>
    if alo < bi ∧ blo < bj ∧ bjunk (b.getD (bj - 1) 0) = false ∧
        a.getD (bi - 1) 0 = b.getD (bj - 1) 0 then
      extLeft a b alo blo fuel (bi - 1, bj - 1, bs + 1)
    else (bi, bj, bs)

/-- Second widening loop: extend rightwards over equal non-junk elements
(`ahi - besti - bestsize` strictly decreases, so `ahi` iterations
suffice). -/
def extRight (a b : PyStr) (ahi bhi : Nat) : Nat → Nat × Nat × Nat → Nat × Nat × Nat
  | 0, r => r
  | fuel + 1, (bi, bj, bs) =>
    if bi + bs < ahi ∧ bj + bs < bhi ∧ bjunk (b.getD (bj + bs) 0) = false ∧
        a.getD (bi + bs) 0 = b.getD (bj + bs) 0 then
      extRight a b ahi bhi fuel (bi, bj, bs + 1)
    else (bi, bj, bs)

/-- Third widening loop: extend leftwards over equal junk elements (a
no-op here since the junk set is empty, kept for fidelity). -/
def extLeftJunk (a b : PyStr) (alo blo : Nat) : Nat → Nat × Nat × Nat → Nat × Nat × Nat
  | 0, r => r
  | fuel + 1, (bi, bj, bs) =>
    if alo < bi ∧ blo < bj ∧ bjunk (b.getD (bj - 1) 0) = true ∧
        a.getD (bi - 1) 0 = b.getD (bj - 1) 0 then
      extLeftJunk a b alo blo fuel (bi - 1, bj - 1, bs + 1)
    else (bi, bj, bs)

/-- Fourth widening loop: extend rightwards over equal junk elements (a
no-op here since the junk set is empty, kept for fidelity). -/
def extRightJunk (a b : PyStr) (ahi bhi : Nat) : Nat → Nat × Nat × Nat → Nat × Nat × Nat
  | 0, r => r
  | fuel + 1, (bi, bj, bs) =>
    if bi + bs < ahi ∧ bj + bs < bhi ∧ bjunk (b.getD (bj + bs) 0) = true ∧
        a.getD (bi + bs) 0 = b.getD (bj + bs) 0 then
      extRightJunk a b ahi bhi fuel (bi, bj, bs + 1)
    else (bi, bj, bs)

/-- `SequenceMatcher.find_longest_match(alo, ahi, blo, bhi)` for
sequences `a` and `b`: the dynamic-programming loop starting from
`besti, bestj, bestsize = alo, blo, 0` followed by the four widening
loops.  Returns `(besti, bestj, bestsize)`. -/
def findLongestMatch (a b : PyStr) (alo ahi blo bhi : Nat) : Nat × Nat × Nat :=
  let st := flmLoop a b blo bhi alo (ahi - alo) ⟨fun _ => 0, alo, blo, 0⟩
  let r1 := extLeft a b alo blo st.besti (st.besti, st.bestj, st.bestsize)
  let r2 := extRight a b ahi bhi ahi r1
  let r3 := extLeftJunk a b alo blo r2.1 r2
  extRightJunk a b ahi bhi ahi r3

/-- Total size of the blocks of `get_matching_blocks` (the queue-driven
recursion of the source; the final merging of adjacent blocks does not
change the total, and this total is what `ratio()` uses).  The fuel
dominates the recursion depth: every recursive call is on a strictly
smaller `a`-window, so `ahi - alo` units suffice; callers pass
`a.length + b.length`. -/
def mbSum (a b : PyStr) : Nat → Nat → Nat → Nat → Nat → Nat
  | 0, _, _, _, _ => 0
  | fuel + 1, alo, ahi, blo, bhi =>
    let r := findLongestMatch a b alo ahi blo bhi
    if r.2.2 = 0 then 0
    else
      r.2.2 +
        (if alo < r.1 ∧ blo < r.2.1 then mbSum a b fuel alo r.1 blo r.2.1 else 0) +
        (if r.1 + r.2.2 < ahi ∧ r.2.1 + r.2.2 < bhi then
          mbSum a b fuel (r.1 + r.2.2) ahi (r.2.1 + r.2.2) bhi
        else 0)

/-- The two integers determining the float `_calculate_ratio(m, length)`
(which is `1.0` when `length == 0` and `2.0 * m / length` otherwise):
`ratio()` values are carried as such pairs and their comparisons are
decided exactly by cross-multiplication below.  Here: the pair for
`SequenceMatcher.ratio()` with `a = x` (candidate) and `b = word`
(query). -/
def ratE (a b : PyStr) : Nat × Nat :=
  (mbSum a b (a.length + b.length) 0 a.length 0 b.length, a.length + b.length)

/-- The pair for `SequenceMatcher.quick_ratio()`: its matches counter
counts, for each element of `a`, the occurrences still available in `b`,
i.e. the size of the multiset intersection of the two sequences. -/
def qrE (a b : PyStr) : Nat × Nat :=
  (Multiset.card ((a : Multiset Nat) ∩ (b : Multiset Nat)), a.length + b.length)

/-- The pair for `SequenceMatcher.real_quick_ratio()`:
`_calculate_ratio(min(la, lb), la + lb)`. -/
def rqrE (a b : PyStr) : Nat × Nat :=
  (min a.length b.length, a.length + b.length)

/-- The exact rational value of a ratio pair — the number the
`_calculate_ratio` float denotes. -/
def ratVal (p : Nat × Nat) : ℚ :=
  if p.2 = 0 then 1 else 2 * (p.1 : ℚ) / (p.2 : ℚ)

/-- `SequenceMatcher.ratio()` as a rational (statement form). -/
def seqRatio (a b : PyStr) : ℚ := ratVal (ratE a b)

/-- `SequenceMatcher.quick_ratio()` as a rational (statement form). -/
def quickRat (a b : PyStr) : ℚ := ratVal (qrE a b)

/-- `SequenceMatcher.real_quick_ratio()` as a rational (statement
form). -/
def realQuickRat (a b : PyStr) : ℚ := ratVal (rqrE a b)

/-- The test `cutoff <= _calculate_ratio(m, length)` for the cutoff
`cn / cd` (the call site uses `0.3 = 3 / 10`), decided exactly. -/
def cutoffLe (cn cd : Nat) (p : Nat × Nat) : Bool :=
  if p.2 = 0 then decide (cn ≤ cd) else decide (cn * p.2 ≤ cd * (2 * p.1))

/-- `value p < value q` for two ratio pairs (comparison of the two
score floats), decided exactly. -/
def scoreLt (p q : Nat × Nat) : Bool :=
  if p.2 = 0 then (if q.2 = 0 then false else decide (q.2 < 2 * q.1))
  else if q.2 = 0 then decide (2 * p.1 < p.2)
  else decide (2 * p.1 * q.2 < 2 * q.1 * p.2)

/-- `value p == value q` for two ratio pairs, decided exactly. -/
def scoreEq (p q : Nat × Nat) : Bool :=
  if p.2 = 0 then (if q.2 = 0 then true else decide (2 * q.1 = q.2))
  else if q.2 = 0 then decide (2 * p.1 = p.2)
  else decide (2 * p.1 * q.2 = 2 * q.1 * p.2)

/-- Python `<` on code-point strings (lexicographic). -/
def strLt : PyStr → PyStr → Bool
  | [], [] => false
  | [], _ :: _ => true
  | _ :: _, [] => false
  | c :: s, d :: t => if c < d then true else if d < c then false else strLt s t

/-- Python `<` on the `(score, name)` pairs ranked by `heapq.nlargest`
(tuple comparison: score float first, then the name string). -/
def pairLt (p q : (Nat × Nat) × PyStr) : Bool :=
  if scoreLt p.1 q.1 then true
  else if scoreEq p.1 q.1 then strLt p.2 q.2
  else false

/-- Stable insertion of one pair into a descending-sorted list. -/
def insDesc (x : (Nat × Nat) × PyStr) :
    List ((Nat × Nat) × PyStr) → List ((Nat × Nat) × PyStr)
  | [] => [x]
  | y :: l => if pairLt x y then y :: insDesc x l else x :: y :: l

/-- Stable descending sort: `heapq.nlargest(n, result)` is
`sorted(result, reverse=True)[:n]` with equal elements kept in
encounter order. -/
def sortDesc : List ((Nat × Nat) × PyStr) → List ((Nat × Nat) × PyStr)
  | [] => []
  | x :: l => insDesc x (sortDesc l)

/-- `difflib.get_close_matches(word, possibilities, n, cutoff)` with
cutoff `cn / cd`: the guard chain over the three ratios collects
`(ratio, x)` pairs, which `heapq.nlargest` ranks; the scores are then
stripped. -/
def getCloseMatches (word : PyStr) (possibilities : List PyStr)
    (n cn cd : Nat) : List PyStr :=
  let result := possibilities.filterMap (fun x =>
    if cutoffLe cn cd (rqrE x word) ∧ cutoffLe cn cd (qrE x word) ∧
        cutoffLe cn cd (ratE x word) then
      some (ratE x word, x)
    else none)
  ((sortDesc result).take n).map Prod.snd

/-! ### The resolver -/

/-- Python `min(matching_devices, key=len)` on a non-empty list: the
first element of least length (`min` keeps the incumbent on ties). -/
def minFirstLen : List PyStr → Option PyStr
  | [] => none
  | h :: t => some (t.foldl (fun m d => if d.length < m.length then d else m) h)

/-- `find_closest_device(name, devices)` from `select_audio_output.py`:
empty list guard, then case-insensitive exact match, then substring
matching (unique hit, else shortest hit), then
`difflib.get_close_matches(name, devices, n=3, cutoff=0.3)`. -/
def find_closest_device (name : PyStr) (devices : List PyStr) : Option PyStr :=
  if devices.isEmpty then none
  else
    match devices.find? (fun d => lower d == lower name) with
    | some d => some d
    | none =>
      let matching := devices.filter (fun d => decide (lower name <:+: lower d))
      if matching.length = 1 then matching.head?
      else if 1 < matching.length then minFirstLen matching
      else (getCloseMatches name devices 3 3 10).head?

/-- The exact and substring tiers of `find_closest_device` (strategies 1
and 2 of the source); `none` exactly when the function would fall
through to the fuzzy tier, or when the device list is empty. -/
def firstTwoTiers (name : PyStr) (devices : List PyStr) : Option PyStr :=
  if devices.isEmpty then none
  else
    match devices.find? (fun d => lower d == lower name) with
    | some d => some d
    | none =>
      let matching := devices.filter (fun d => decide (lower name <:+: lower d))
      if matching.length = 1 then matching.head?
      else if 1 < matching.length then minFirstLen matching
      else none

/-- The device selected by `switch_device(name)` once the device list
has been fetched: a byte-for-byte member of the list is selected
directly (the resolver is bypassed), otherwise `find_closest_device`
runs. -/
def switchChoice (name : PyStr) (devices : List PyStr) : Option PyStr :=
  if name ∈ devices then some name else find_closest_device name devices

/-! ### The volume/mute controller -/

/-- State of the external audio backend together with a trace of the
mutating calls.  `get_volume`, `set_volume` and the two halves of
`toggle_mute` each probe their own ordered list of equivalent
`osascript` commands, so read and write availability are independent
flags; a write that is attempted appends its target value to the
corresponding trace, and additionally updates the stored state when the
write family is available. -/
structure Backend where
  getVolOk : Bool
  setVolOk : Bool
  vol : Int
  getMuteOk : Bool
  setMuteOk : Bool
  muted : Bool
  volSetTrace : List Int
  muteSetTrace : List Bool

/-- `max(0, min(100, level))`, the clamp used by `set_volume` and
`adjust_volume`. -/
def clamp (level : Int) : Int := max 0 (min 100 level)

/-- `get_volume()`: the first successful `osascript` read, `None` when
volume reading is unavailable.  No state is mutated. -/
def get_volume (be : Backend) : Option Int :=
  if be.getVolOk then some be.vol else none

/-- `set_volume(level)`: clamps the level into `[0, 100]`, then attempts
the `osascript` set commands with the clamped value (recorded in the
trace); returns `True` on success and `False` when every command
fails. -/
def set_volume (level : Int) (be : Backend) : Bool × Backend :=
  let lvl := clamp level
  if be.setVolOk then
    (true, { be with vol := lvl, volSetTrace := be.volSetTrace ++ [lvl] })
  else
    (false, { be with volSetTrace := be.volSetTrace ++ [lvl] })

/-- `adjust_volume(delta)`: reads the current volume; on `None` reports
failure without calling `set_volume`; otherwise calls
`set_volume(max(0, min(100, current + delta)))`. -/
def adjust_volume (delta : Int) (be : Backend) : Bool × Backend :=
  match get_volume be with
  | none => (false, be)
  | some cv => set_volume (max 0 (min 100 (cv + delta))) be

/-- `toggle_mute()`: reads the mute state (`None` without side effects
when unreadable), then attempts to set the opposite state, returning the
new state on success and `None` (with the flag unchanged) when every set
command fails. -/
def toggle_mute (be : Backend) : Option Bool × Backend :=
  if be.getMuteOk then
    let newState := !be.muted
    if be.setMuteOk then
      (some newState,
        { be with muted := newState, muteSetTrace := be.muteSetTrace ++ [newState] })
    else
      (none, { be with muteSetTrace := be.muteSetTrace ++ [newState] })
  else (none, be)

/-- `a[p + t] == b[r + t]` for all `t < k`: positions `p` of `a` and `r`
of `b` start a matching run of length `k`. -/
def MatchAt (a b : PyStr) (p r k : Nat) : Prop :=
  ∀ t, t < k → a.getD (p + t) 0 = b.getD (r + t) 0

/-- Specification of a `find_longest_match` triple `(i, j, k)` for the
window `[alo, ahi) × [blo, bhi)`: the run lies inside the window and is
an actual match. -/
def GoodT (a b : PyStr) (alo ahi blo bhi : Nat) (r : Nat × Nat × Nat) : Prop :=
  alo ≤ r.1 ∧ r.1 + r.2.2 ≤ ahi ∧ blo ≤ r.2.1 ∧ r.2.1 + r.2.2 ≤ bhi ∧
    MatchAt a b r.1 r.2.1 r.2.2

/-- Validity of a `j2len` row as seen when the outer loop is about to
process row `i`: an entry `f j = k ≠ 0` records a matching run of length
`k` ending at `a`-position `i - 1` and `b`-position `j`, inside the
window.  (For `i = 0` this forces the row to be empty.) -/
def RowBelow (a b : PyStr) (alo blo bhi i : Nat) (f : Nat → Nat) : Prop :=
  ∀ j, f j ≠ 0 →
    f j ≤ i ∧ alo + f j ≤ i ∧ f j ≤ j + 1 ∧ blo + f j ≤ j + 1 ∧ j < bhi ∧
      MatchAt a b (i - f j) (j + 1 - f j) (f j)

/-- The head of the list (when present) is not `pairLt`-below any
element: the ranking property `heapq.nlargest` guarantees for its first
result. -/
def HeadMax (l : List ((Nat × Nat) × PyStr)) : Prop :=
  ∀ h, l.head? = some h → ∀ y ∈ l, pairLt h y = false

/-! ### Helper lemmas: clamping -/

lemma clamp_nonneg (x : Int) : 0 ≤ clamp x := le_max_left 0 _

lemma clamp_le_100 (x : Int) : clamp x ≤ 100 := by
  unfold clamp
  exact max_le (by norm_num) (min_le_left _ _)

lemma clamp_eq_self {x : Int} (h0 : 0 ≤ x) (h1 : x ≤ 100) : clamp x = x := by
  unfold clamp
  rw [min_eq_right h1, max_eq_right h0]

lemma clamp_idem (x : Int) : clamp (clamp x) = clamp x :=
  clamp_eq_self (clamp_nonneg x) (clamp_le_100 x)

/-! ### Helper lemmas: lowercasing -/

lemma lowerChar_idem (c : Nat) : lowerChar (lowerChar c) = lowerChar c := by
  unfold lowerChar
  by_cases h : 65 ≤ c ∧ c ≤ 90
  · rw [if_pos h, if_neg (by omega)]
  · rw [if_neg h, if_neg h]

lemma lower_idem (s : PyStr) : lower (lower s) = lower s := by
  unfold lower
  rw [List.map_map]
  exact List.map_congr_left (fun c _ => lowerChar_idem c)

/-! ### Claims about the volume/mute controller -/

/-- C5 (counterexample): on a backend where reading the volume succeeds
(current volume 95) but every volume-set command fails,
`adjust_volume(10)` reports failure and the stored volume stays 95 —
the claim demands that it stores `clamp(95 + 10) = 100`. -/
theorem adjust_volume_cex :
    (adjust_volume 10 ⟨true, false, 95, true, true, false, [], []⟩).1 = false ∧
    (adjust_volume 10 ⟨true, false, 95, true, true, false, [], []⟩).2.vol = 95 :=
  ⟨rfl, rfl⟩

/-- C5 (amended): if `get_volume` reports `None`, `adjust_volume delta`
returns `False` and leaves the backend untouched (in particular no
`set_volume` call is recorded); otherwise, with current volume `v` in
`[0, 100]`, it calls `set_volume` with `clamp (v + delta)`, which stores
that value exactly when the backend set commands succeed, and otherwise
reports failure with the volume unchanged. -/
theorem adjust_volume_contract (delta : Int) (be : Backend) :
    (be.getVolOk = false → adjust_volume delta be = (false, be)) ∧
    (be.getVolOk = true → 0 ≤ be.vol → be.vol ≤ 100 →
      (adjust_volume delta be).2.volSetTrace
          = be.volSetTrace ++ [clamp (be.vol + delta)] ∧
        (be.setVolOk = true → (adjust_volume delta be).1 = true ∧
          (adjust_volume delta be).2.vol = clamp (be.vol + delta)) ∧
        (be.setVolOk = false → (adjust_volume delta be).1 = false ∧
          (adjust_volume delta be).2.vol = be.vol)) := by
  rcases be with ⟨gv, sv, vol, gm, sm, mu, vt, mt⟩
  cases gv <;> cases sv <;>
    simp [adjust_volume, get_volume, set_volume, clamp_idem, clamp]

/-- C5 (witness): concrete runs of `adjust_volume` through the contract:
`adjust_volume 10` at stored volume 95 on a fully available backend
stores 100 and succeeds; on a backend whose volume read fails it reports
failure and changes nothing. -/
theorem adjust_volume_contract_witness :
    ((adjust_volume 10 ⟨true, true, 95, true, true, false, [], []⟩).1 = true ∧
      (adjust_volume 10 ⟨true, true, 95, true, true, false, [], []⟩).2.vol = 100) ∧
    adjust_volume 10 ⟨false, true, 95, true, true, false, [], []⟩
      = (false, ⟨false, true, 95, true, true, false, [], []⟩) := by
  constructor
  · have h := (adjust_volume_contract 10 ⟨true, true, 95, true, true, false, [], []⟩).2
      rfl (by norm_num) (by norm_num)
    refine ⟨(h.2.1 rfl).1, ((h.2.1 rfl).2).trans ?_⟩
    decide
  · exact (adjust_volume_contract 10 ⟨false, true, 95, true, true, false, [], []⟩).1 rfl

/-- C6: `set_volume level` always clamps: the value it hands to the
backend is `clamp level`, which lies in `[0, 100]`, and whenever the
backend set commands are available that clamped value becomes the stored
volume. -/
theorem set_volume_clamps (level : Int) (be : Backend) :
    0 ≤ clamp level ∧ clamp level ≤ 100 ∧
    (set_volume level be).2.volSetTrace = be.volSetTrace ++ [clamp level] ∧
    (be.setVolOk = true → (set_volume level be).2.vol = clamp level) := by
  rcases be with ⟨gv, sv, vol, gm, sm, mu, vt, mt⟩
  cases sv <;>
    simp [set_volume, clamp_nonneg, clamp_le_100]

/-- C6 (witness): `set_volume 150` stores 100 and `set_volume (-20)`
stores 0 on an available backend. -/
theorem set_volume_clamps_witness :
    (set_volume 150 ⟨true, true, 50, true, true, false, [], []⟩).2.vol = 100 ∧
    (set_volume (-20) ⟨true, true, 50, true, true, false, [], []⟩).2.vol = 0 := by
  constructor
  · have h := (set_volume_clamps 150 ⟨true, true, 50, true, true, false, [], []⟩).2.2.2 rfl
    rw [h]; decide
  · have h := (set_volume_clamps (-20) ⟨true, true, 50, true, true, false, [], []⟩).2.2.2 rfl
    rw [h]; decide

/-- C7 (counterexample): on a backend where the mute state reads
successfully (unmuted) but every mute-set command fails, `toggle_mute`
returns `None` and the flag stays `false` — the claim demands that it
set the flag to `true` and return that new state. -/
theorem toggle_mute_cex :
    (toggle_mute ⟨true, true, 0, true, false, false, [], []⟩).1 = none ∧
    (toggle_mute ⟨true, true, 0, true, false, false, [], []⟩).2.muted = false :=
  ⟨rfl, rfl⟩

/-- C7 (amended): if reading the mute state fails, `toggle_mute` returns
`None` without side effects; otherwise it attempts to set the opposite
of the state it read — when the set succeeds it stores and returns that
new state (so two successive successful toggles restore and return the
original state), and when every set command fails it returns `None` with
the flag unchanged. -/
theorem toggle_mute_contract (be : Backend) :
    (be.getMuteOk = false → toggle_mute be = (none, be)) ∧
    (be.getMuteOk = true → be.setMuteOk = true →
      (toggle_mute be).1 = some (!be.muted) ∧
        (toggle_mute be).2.muted = !be.muted) ∧
    (be.getMuteOk = true → be.setMuteOk = false →
      (toggle_mute be).1 = none ∧ (toggle_mute be).2.muted = be.muted) ∧
    (be.getMuteOk = true → be.setMuteOk = true →
      (toggle_mute (toggle_mute be).2).1 = some be.muted ∧
        (toggle_mute (toggle_mute be).2).2.muted = be.muted) := by
  rcases be with ⟨gv, sv, vol, gm, sm, mu, vt, mt⟩
  cases gm <;> cases sm <;> cases mu <;>
    simp [toggle_mute]

/-- C7 (witness): on a fully available unmuted backend the first toggle
returns `some true` and the second toggle returns `some false`,
restoring the original state. -/
theorem toggle_mute_contract_witness :
    (toggle_mute ⟨true, true, 0, true, true, false, [], []⟩).1 = some true ∧
    (toggle_mute (toggle_mute ⟨true, true, 0, true, true, false, [], []⟩).2).1
      = some false := by
  have h := toggle_mute_contract ⟨true, true, 0, true, true, false, [], []⟩
  exact ⟨(h.2.1 rfl rfl).1, (h.2.2.2 rfl rfl).1⟩

/-- C8: failures of the volume/mute controller are reported as the
distinct unavailable values (`None` for reads and `toggle_mute`, `False`
for writes) and never disturb the rest of the state: the four operations
are total functions of the backend state, and on an unavailable backend
each returns its failure value with the stored volume and mute flag
unchanged. -/
theorem controller_failures_nonfatal (be : Backend) (level delta : Int) :
    (be.getVolOk = false → get_volume be = none) ∧
    (be.setVolOk = false → (set_volume level be).1 = false ∧
      (set_volume level be).2.vol = be.vol ∧
      (set_volume level be).2.muted = be.muted) ∧
    (be.getVolOk = false → adjust_volume delta be = (false, be)) ∧
    ((be.getMuteOk = false ∨ be.setMuteOk = false) → (toggle_mute be).1 = none ∧
      (toggle_mute be).2.muted = be.muted ∧ (toggle_mute be).2.vol = be.vol) := by
  rcases be with ⟨gv, sv, vol, gm, sm, mu, vt, mt⟩
  cases gv <;> cases sv <;> cases gm <;> cases sm <;>
    simp [get_volume, set_volume, adjust_volume, toggle_mute]

/-- C8 (witness): on a backend with every capability unavailable, each
operation returns its failure value and leaves the state unchanged. -/
theorem controller_failures_nonfatal_witness :
    get_volume ⟨false, false, 40, false, false, true, [], []⟩ = none ∧
    (set_volume 70 ⟨false, false, 40, false, false, true, [], []⟩).1 = false ∧
    adjust_volume 5 ⟨false, false, 40, false, false, true, [], []⟩
      = (false, ⟨false, false, 40, false, false, true, [], []⟩) ∧
    (toggle_mute ⟨false, false, 40, false, false, true, [], []⟩).1 = none := by
  have h := controller_failures_nonfatal ⟨false, false, 40, false, false, true, [], []⟩ 70 5
  exact ⟨h.1 rfl, (h.2.1 rfl).1, h.2.2.1 rfl, (h.2.2.2 (Or.inl rfl)).1⟩

/-- C9: if the query is byte-for-byte equal to a member of the fetched
device list, `switch_device` selects exactly that name directly, without
consulting `find_closest_device`. -/
theorem switch_byte_exact_bypass (q : PyStr) (D : List PyStr) (h : q ∈ D) :
    switchChoice q D = some q := by
  unfold switchChoice
  rw [if_pos h]

/-- C9 (witness): with a differently-cased variant occurring earlier in
the list, the byte-exact member is still selected as itself — even
though the resolver, if consulted, would return the earlier variant. -/
theorem switch_byte_exact_bypass_witness :
    switchChoice (S "abc") [S "AbC", S "abc"] = some (S "abc") ∧
    find_closest_device (S "abc") [S "AbC", S "abc"] = some (S "AbC") :=
  ⟨switch_byte_exact_bypass (S "abc") [S "AbC", S "abc"] (by decide), by decide⟩

/-! ### Claims about the exact tier -/

/-- C1 (counterexample): `"abc"` is literally a member of the list
`["AbC", "abc"]`, yet the resolver returns `"AbC"`: the first tier is
case-insensitive and returns the first device whose lowercase form
matches, not the verbatim member. -/
theorem resolver_exact_tier_cex :
    S "abc" ∈ [S "AbC", S "abc"] ∧
    find_closest_device (S "abc") [S "AbC", S "abc"] = some (S "AbC") ∧
    S "AbC" ≠ S "abc" := by
  decide

/-- `find?` returns the first satisfying element: the list splits into a
prefix of failing elements, the found element, and a suffix. -/
lemma find?_first {α : Type} (p : α → Bool) (l : List α) (a : α)
    (h : l.find? p = some a) :
    ∃ pre post, l = pre ++ a :: post ∧ ∀ x ∈ pre, p x = false := by
  induction l with
  | nil => cases h
  | cons x t ih =>
    by_cases hp : p x = true
    · rw [List.find?_cons_of_pos t hp] at h
      injection h with h
      subst h
      exact ⟨[], t, rfl, by simp⟩
    · rw [List.find?_cons_of_neg t hp] at h
      obtain ⟨pre, post, he, hpre⟩ := ih h
      refine ⟨x :: pre, post, by rw [List.cons_append, he], ?_⟩
      intro y hy
      rcases List.mem_cons.mp hy with rfl | hy2
      · simpa using hp
      · exact hpre y hy2

/-- C1 (amended): for `n ∈ D` and any case-variant `v` of `n` (any `v`
with `lower v = lower n`, including `n` itself), the resolver returns
the first device of `D` whose lowercase form equals `lower n` — the
returned device is case-equivalent to `n` and every device before it in
`D` fails the lowercase test, and it is `n` itself whenever no other
member of `D` shares `n`'s lowercase form. -/
theorem resolver_exact_tier (D : List PyStr) (n v : PyStr) (hn : n ∈ D)
    (hv : lower v = lower n) :
    ∃ d, find_closest_device v D = some d ∧ d ∈ D ∧ lower d = lower n ∧
      (∃ pre post, D = pre ++ d :: post ∧ ∀ d2 ∈ pre, lower d2 ≠ lower n) ∧
      ((∀ d2 ∈ D, lower d2 = lower n → d2 = n) → d = n) := by
  have hne : D.isEmpty = false := by
    cases D with
    | nil => cases hn
    | cons x t => rfl
  have hs : (D.find? (fun d => lower d == lower v)).isSome := by
    rw [List.find?_isSome]
    exact ⟨n, hn, by simp [hv]⟩
  obtain ⟨d, hd⟩ := Option.isSome_iff_exists.mp hs
  have hdl : lower d = lower n := by
    have := List.find?_some hd
    simpa [hv] using this
  obtain ⟨pre, post, he, hpre⟩ := find?_first (fun d => lower d == lower v) D d hd
  refine ⟨d, ?_, List.mem_of_find?_eq_some hd, hdl, ⟨pre, post, he, ?_⟩,
    fun hu => hu d (List.mem_of_find?_eq_some hd) hdl⟩
  · simp [find_closest_device, hne, hd]
  · intro d2 hd2 hcontra
    have hfail := hpre d2 hd2
    simp only [hcontra, hv] at hfail
    simp at hfail

/-- C1 (witness): in `["AirPods Pro", "Studio Display"]` the case
variant `"AIRPODS PRO"` of the member `"AirPods Pro"` resolves to
`"AirPods Pro"` itself. -/
theorem resolver_exact_tier_witness :
    find_closest_device (S "AIRPODS PRO") [S "AirPods Pro", S "Studio Display"]
      = some (S "AirPods Pro") := by
  obtain ⟨d, hd, hmem, hl, hfirst, huniq⟩ :=
    resolver_exact_tier [S "AirPods Pro", S "Studio Display"]
      (S "AirPods Pro") (S "AIRPODS PRO") (by decide) (by decide)
  rw [hd, huniq (by decide)]

/-! ### Claims about the substring tier -/

/-- Specification of Python `min(·, key=len)` as folded by
`minFirstLen`: the result is a member of minimal length and is the first
member of that length. -/
lemma foldl_min_spec : ∀ (t : List PyStr) (h m : PyStr),
    t.foldl (fun m d => if d.length < m.length then d else m) h = m →
    m ∈ h :: t ∧ (∀ d ∈ h :: t, m.length ≤ d.length) ∧
      ∃ pre post, h :: t = pre ++ m :: post ∧ ∀ d ∈ pre, m.length < d.length := by
  intro t
  induction t with
  | nil =>
    intro h m hm
    simp only [List.foldl_nil] at hm
    subst hm
    exact ⟨by simp, by simp, [], [], by simp, by simp⟩
  | cons d t ih =>
    intro h m hm
    rw [List.foldl_cons] at hm
    by_cases hlt : d.length < h.length
    · rw [if_pos hlt] at hm
      obtain ⟨hmem, hmin, pre, post, hsplit, hpre⟩ := ih d m hm
      refine ⟨List.mem_cons_of_mem h hmem, ?_, h :: pre, post, ?_, ?_⟩
      · intro x hx
        rcases List.mem_cons.mp hx with rfl | hx
        · have := hmin d (List.mem_cons_self d t)
          omega
        · exact hmin x hx
      · rw [List.cons_append, ← hsplit]
      · intro x hx
        rcases List.mem_cons.mp hx with rfl | hx
        · have := hmin d (List.mem_cons_self d t)
          omega
        · exact hpre x hx
    · rw [if_neg hlt] at hm
      obtain ⟨hmem, hmin, pre, post, hsplit, hpre⟩ := ih h m hm
      refine ⟨?_, ?_, ?_⟩
      · rcases List.mem_cons.mp hmem with rfl | hx
        · exact List.mem_cons_self m (d :: t)
        · exact List.mem_cons_of_mem _ (List.mem_cons_of_mem _ hx)
      · intro x hx
        rcases List.mem_cons.mp hx with rfl | hx
        · exact hmin x (List.mem_cons_self x t)
        rcases List.mem_cons.mp hx with rfl | hx2
        · have := hmin h (List.mem_cons_self h t)
          omega
        · exact hmin x (List.mem_cons_of_mem _ hx2)
      · cases pre with
        | nil =>
          rw [List.nil_append] at hsplit
          injection hsplit with h1 h2
          subst h1
          exact ⟨[], d :: t, by simp, by simp⟩
        | cons p pre2 =>
          rw [List.cons_append] at hsplit
          injection hsplit with h1 h2
          subst h1
          have hh : m.length < h.length := hpre h (List.mem_cons_self h pre2)
          refine ⟨h :: d :: pre2, post, ?_, ?_⟩
          · rw [List.cons_append, List.cons_append, ← h2]
          · intro x hx
            rcases List.mem_cons.mp hx with rfl | hx
            · exact hh
            rcases List.mem_cons.mp hx with rfl | hx2
            · omega
            · exact hpre x (List.mem_cons_of_mem _ hx2)

/-- Branch reduction: when the exact tier misses and the substring tier
produces at least one match, `find_closest_device` returns
`minFirstLen` of the matches (for a single match the `matching[0]`
branch coincides with it). -/
lemma find_closest_device_substring (q : PyStr) (D : List PyStr)
    (hne : D.isEmpty = false)
    (hfind : D.find? (fun d => lower d == lower q) = none)
    (hm : D.filter (fun d => decide (lower q <:+: lower d)) ≠ []) :
    find_closest_device q D
      = minFirstLen (D.filter (fun d => decide (lower q <:+: lower d))) := by
  simp only [find_closest_device, hne, hfind, Bool.false_eq_true, if_false]
  rcases hx : D.filter (fun d => decide (lower q <:+: lower d)) with _ | ⟨h, t⟩
  · exact absurd hx hm
  · cases t with
    | nil => rfl
    | cons d t2 =>
      rw [if_neg (by simp), if_pos (by simp)]

/-- C2: when the exact tier misses and at least one device contains the
lower-cased query as a substring of its lower-cased name, the resolver
returns a substring match `m` of minimal length that occurs in the match
list before every other match of that length — so the unique match when
there is exactly one, and otherwise the shortest with ties broken by
first-encountered order. -/
theorem resolver_substring_tier (q : PyStr) (D : List PyStr)
    (hex : ∀ d ∈ D, lower d ≠ lower q)
    (hsub : ∃ d ∈ D, lower q <:+: lower d) :
    ∃ m, find_closest_device q D = some m ∧
      m ∈ D.filter (fun d => decide (lower q <:+: lower d)) ∧
      (∀ d ∈ D.filter (fun d => decide (lower q <:+: lower d)),
        m.length ≤ d.length) ∧
      ∃ pre post,
        D.filter (fun d => decide (lower q <:+: lower d)) = pre ++ m :: post ∧
          ∀ d ∈ pre, m.length < d.length := by
  obtain ⟨d0, hd0, hd0s⟩ := hsub
  have hne : D.isEmpty = false := by
    cases D with
    | nil => cases hd0
    | cons x t => rfl
  have hfind : D.find? (fun d => lower d == lower q) = none := by
    rw [List.find?_eq_none]
    intro x hx
    simpa using hex x hx
  have hmem0 : d0 ∈ D.filter (fun d => decide (lower q <:+: lower d)) :=
    List.mem_filter.mpr ⟨hd0, by simpa using hd0s⟩
  have hm : D.filter (fun d => decide (lower q <:+: lower d)) ≠ [] := by
    intro hnil
    rw [hnil] at hmem0
    cases hmem0
  rcases hx : D.filter (fun d => decide (lower q <:+: lower d)) with _ | ⟨h, t⟩
  · exact absurd hx hm
  · obtain ⟨hmem, hmin, pre, post, hsplit, hpre⟩ :=
      foldl_min_spec t h (t.foldl (fun m d => if d.length < m.length then d else m) h) rfl
    refine ⟨_, ?_, hmem, hmin, pre, post, hsplit, hpre⟩
    rw [find_closest_device_substring q D hne hfind hm, hx]
    rfl

/-- C2 (witness): `resolve("airpods", ["AirPods Pro", "Studio Display"])`
returns `"AirPods Pro"` via the substring tier. -/
theorem resolver_substring_tier_witness :
    find_closest_device (S "airpods") [S "AirPods Pro", S "Studio Display"]
      = some (S "AirPods Pro") := by
  obtain ⟨m, hm, hmem, hmin, hrest⟩ :=
    resolver_substring_tier (S "airpods") [S "AirPods Pro", S "Studio Display"]
      (by decide) (by decide)
  have hf : [S "AirPods Pro", S "Studio Display"].filter
      (fun d => decide (lower (S "airpods") <:+: lower d)) = [S "AirPods Pro"] := by
    decide
  rw [hf] at hmem
  rw [hm, List.mem_singleton.mp hmem]

/-! ### Claims about case-invariance of the resolver -/

lemma firstTwoTiers_lower (q : PyStr) (D : List PyStr) :
    firstTwoTiers (lower q) D = firstTwoTiers q D := by
  unfold firstTwoTiers
  simp only [lower_idem]

/-- `find_closest_device` with its local `matching` binding expanded. -/
lemma find_closest_device_eq (q : PyStr) (D : List PyStr) :
    find_closest_device q D =
      if D.isEmpty then none
      else
        match D.find? (fun d => lower d == lower q) with
        | some d => some d
        | none =>
          if (D.filter (fun d => decide (lower q <:+: lower d))).length = 1 then
            (D.filter (fun d => decide (lower q <:+: lower d))).head?
          else if 1 < (D.filter (fun d => decide (lower q <:+: lower d))).length then
            minFirstLen (D.filter (fun d => decide (lower q <:+: lower d)))
          else (getCloseMatches q D 3 3 10).head? := rfl

/-- `firstTwoTiers` with its local `matching` binding expanded. -/
lemma firstTwoTiers_eq (q : PyStr) (D : List PyStr) :
    firstTwoTiers q D =
      if D.isEmpty then none
      else
        match D.find? (fun d => lower d == lower q) with
        | some d => some d
        | none =>
          if (D.filter (fun d => decide (lower q <:+: lower d))).length = 1 then
            (D.filter (fun d => decide (lower q <:+: lower d))).head?
          else if 1 < (D.filter (fun d => decide (lower q <:+: lower d))).length then
            minFirstLen (D.filter (fun d => decide (lower q <:+: lower d)))
          else none := rfl

/-- When one of the first two tiers answers, `find_closest_device`
returns that answer. -/
lemma firstTwoTiers_agree (q : PyStr) (D : List PyStr) (m : PyStr)
    (h : firstTwoTiers q D = some m) :
    find_closest_device q D = some m := by
  rw [firstTwoTiers_eq] at h
  rw [find_closest_device_eq]
  by_cases hD : D.isEmpty = true
  · rw [if_pos hD] at h
    cases h
  · rw [if_neg hD] at h ⊢
    cases hf : D.find? (fun d => lower d == lower q) with
    | some d =>
      rw [hf] at h
      exact h
    | none =>
      rw [hf] at h
      by_cases h1 : (D.filter (fun d => decide (lower q <:+: lower d))).length = 1
      · rw [if_pos h1] at h ⊢
        exact h
      · rw [if_neg h1] at h ⊢
        by_cases h2 : 1 < (D.filter (fun d => decide (lower q <:+: lower d))).length
        · rw [if_pos h2] at h ⊢
          exact h
        · rw [if_neg h2] at h
          cases h

/-- C4 (counterexample): resolution is not invariant under the case of
the query: `"ABCDEFGX"` fuzzily resolves to `"ABCDEFGH"`, but its
lower-cased variant shares no characters with `"ABCDEFGH"` and resolves
to nothing, because the fuzzy tier compares the query with its original
case. -/
theorem resolver_case_invariance_cex :
    find_closest_device (S "ABCDEFGX") [S "ABCDEFGH"] = some (S "ABCDEFGH") ∧
    find_closest_device (lower (S "ABCDEFGX")) [S "ABCDEFGH"] = none := by
  constructor
  · decide
  · decide

/-- C4 (amended): the resolver's result is invariant under the case of
the query throughout the exact and substring tiers: whenever those tiers
produce the answer, `resolve(q, D) = resolve(lower q, D)`.  (The fuzzy
tier compares the original-case query, so invariance can fail once
resolution falls through to it.) -/
theorem resolver_case_invariance (q : PyStr) (D : List PyStr)
    (h : firstTwoTiers q D ≠ none) :
    find_closest_device q D = find_closest_device (lower q) D := by
  obtain ⟨m, hm⟩ := Option.ne_none_iff_exists'.mp h
  rw [firstTwoTiers_agree q D m hm,
    firstTwoTiers_agree (lower q) D m (by rw [firstTwoTiers_lower]; exact hm)]

/-- C4 (witness): for the substring-tier query `"Airpods"` the resolver
agrees with its lower-cased variant. -/
theorem resolver_case_invariance_witness :
    find_closest_device (S "Airpods") [S "AirPods Pro", S "Studio Display"]
      = find_closest_device (lower (S "Airpods"))
          [S "AirPods Pro", S "Studio Display"] :=
  resolver_case_invariance (S "Airpods") [S "AirPods Pro", S "Studio Display"]
    (by decide)

/-! ### The membership invariant -/

lemma mem_insDesc {y x : (Nat × Nat) × PyStr} {l : List ((Nat × Nat) × PyStr)} :
    y ∈ insDesc x l ↔ y = x ∨ y ∈ l := by
  induction l with
  | nil => simp [insDesc]
  | cons z l ih =>
    unfold insDesc
    by_cases hp : pairLt x z = true
    · rw [if_pos hp]
      simp only [List.mem_cons, ih]
      tauto
    · rw [if_neg hp]
      simp only [List.mem_cons]

lemma mem_sortDesc {y : (Nat × Nat) × PyStr} {l : List ((Nat × Nat) × PyStr)} :
    y ∈ sortDesc l ↔ y ∈ l := by
  induction l with
  | nil => simp [sortDesc]
  | cons x l ih =>
    simp only [sortDesc, mem_insDesc, ih, List.mem_cons]

/-- Everything `get_close_matches` returns is drawn from the candidate
list. -/
lemma getCloseMatches_subset {x w : PyStr} {P : List PyStr} {n cn cd : Nat}
    (h : x ∈ getCloseMatches w P n cn cd) : x ∈ P := by
  unfold getCloseMatches at h
  simp only [List.mem_map] at h
  obtain ⟨p, hp, rfl⟩ := h
  have hp2 := mem_sortDesc.mp (List.take_subset _ _ hp)
  rw [List.mem_filterMap] at hp2
  obtain ⟨y, hy, hys⟩ := hp2
  by_cases hc : cutoffLe cn cd (rqrE y w) = true ∧ cutoffLe cn cd (qrE y w) = true ∧
      cutoffLe cn cd (ratE y w) = true
  · rw [if_pos hc] at hys
    injection hys with hys
    rw [← hys]
    exact hy
  · rw [if_neg hc] at hys
    cases hys

/-- C10: the resolver only ever returns `None` or an element of the
device list it was given (never a synthesized name), and on the empty
device list it returns `None` for every query. -/
theorem resolver_membership (q : PyStr) (D : List PyStr) :
    (∀ m, find_closest_device q D = some m → m ∈ D) ∧
    find_closest_device q [] = none := by
  refine ⟨?_, rfl⟩
  intro m hm
  rw [find_closest_device_eq] at hm
  by_cases hD : D.isEmpty = true
  · rw [if_pos hD] at hm
    cases hm
  · rw [if_neg hD] at hm
    cases hf : D.find? (fun d => lower d == lower q) with
    | some d =>
      rw [hf] at hm
      have hm2 : some d = some m := hm
      injection hm2 with hm2
      rw [← hm2]
      exact List.mem_of_find?_eq_some hf
    | none =>
      rw [hf] at hm
      by_cases h1 : (D.filter (fun d => decide (lower q <:+: lower d))).length = 1
      · rw [if_pos h1] at hm
        have hm2 : (D.filter (fun d => decide (lower q <:+: lower d))).head? = some m := hm
        have hmem : m ∈ D.filter (fun d => decide (lower q <:+: lower d)) := by
          cases hfl : D.filter (fun d => decide (lower q <:+: lower d)) with
          | nil => rw [hfl] at hm2; cases hm2
          | cons a t =>
            rw [hfl] at hm2
            have hm3 : some a = some m := hm2
            injection hm3 with hm3
            rw [← hm3]
            exact List.mem_cons_self a t
        exact (List.mem_filter.mp hmem).1
      · rw [if_neg h1] at hm
        by_cases h2 : 1 < (D.filter (fun d => decide (lower q <:+: lower d))).length
        · rw [if_pos h2] at hm
          have hm2 : minFirstLen (D.filter (fun d => decide (lower q <:+: lower d)))
              = some m := hm
          cases hfl : D.filter (fun d => decide (lower q <:+: lower d)) with
          | nil => rw [hfl] at hm2; cases hm2
          | cons a t =>
            rw [hfl] at hm2
            simp only [minFirstLen] at hm2
            injection hm2 with hm2
            have hmem := (foldl_min_spec t a m hm2).1
            have : m ∈ D.filter (fun d => decide (lower q <:+: lower d)) :=
              hfl ▸ hmem
            exact (List.mem_filter.mp this).1
        · rw [if_neg h2] at hm
          have hm2 : (getCloseMatches q D 3 3 10).head? = some m := hm
          have hmem : m ∈ getCloseMatches q D 3 3 10 := by
            cases hg : getCloseMatches q D 3 3 10 with
            | nil => rw [hg] at hm2; cases hm2
            | cons a t =>
              rw [hg] at hm2
              have hm3 : some a = some m := hm2
              injection hm3 with hm3
              rw [← hm3]
              exact List.mem_cons_self a t
          exact getCloseMatches_subset hmem

/-- C10 (witness): a successful concrete resolution lands in the device
list. -/
theorem resolver_membership_witness :
    S "Speakers" ∈ [S "MacBook Pro Speakers", S "Speakers"] :=
  (resolver_membership (S "speakers") [S "MacBook Pro Speakers", S "Speakers"]).1
    (S "Speakers") (by decide)

/-! ### Specification of `find_longest_match`: the returned triple is a
matching run inside the window -/

lemma goodT_iff (a b : PyStr) (alo ahi blo bhi bi bj bs : Nat) :
    GoodT a b alo ahi blo bhi (bi, bj, bs) ↔
      alo ≤ bi ∧ bi + bs ≤ ahi ∧ blo ≤ bj ∧ bj + bs ≤ bhi ∧ MatchAt a b bi bj bs :=
  Iff.rfl

lemma njRow_ok (a b : PyStr) (alo blo bhi : Nat) (f : Nat → Nat) (i : Nat)
    (hi : alo ≤ i) (hf : RowBelow a b alo blo bhi i f) :
    RowBelow a b alo blo bhi (i + 1) (njRow a b blo bhi f i) := by
  intro j hj
  unfold njRow at hj ⊢
  by_cases hc : b.getD j 0 = a.getD i 0 ∧ popularB b (a.getD i 0) = false ∧
      blo ≤ j ∧ j < bhi
  · rw [if_pos hc] at hj ⊢
    by_cases hz : j = 0 ∨ f (j - 1) = 0
    · have hv : (if j = 0 then 0 else f (j - 1)) + 1 = 1 := by
        by_cases hj0 : j = 0
        · simp [hj0]
        · rcases hz with hz | hz
          · exact absurd hz hj0
          · simp [hj0, hz]
      rw [hv]
      refine ⟨by omega, by omega, by omega, by omega, hc.2.2.2, ?_⟩
      intro t ht
      have ht0 : t = 0 := by omega
      subst ht0
      simpa using hc.1.symm
    · push_neg at hz
      obtain ⟨hjne, hfne⟩ := hz
      have hv : (if j = 0 then 0 else f (j - 1)) + 1 = f (j - 1) + 1 := by
        simp [hjne]
      rw [hv]
      obtain ⟨k1, k2, k3, k4, k5, k6⟩ := hf (j - 1) hfne
      refine ⟨by omega, by omega, by omega, by omega, hc.2.2.2, ?_⟩
      have e1 : i + 1 - (f (j - 1) + 1) = i - f (j - 1) := by omega
      have e2 : j + 1 - (f (j - 1) + 1) = j - 1 + 1 - f (j - 1) := by omega
      rw [e1, e2]
      intro t ht
      by_cases htk : t < f (j - 1)
      · exact k6 t htk
      · have ht1 : t = f (j - 1) := by omega
        subst ht1
        have e3 : i - f (j - 1) + f (j - 1) = i := by omega
        have e4 : j - 1 + 1 - f (j - 1) + f (j - 1) = j := by omega
        rw [e3, e4]
        exact hc.1.symm
  · rw [if_neg hc] at hj
    exact absurd rfl hj

lemma bestFold_ok (a b : PyStr) (alo ahi blo bhi i : Nat) (nj : Nat → Nat)
    (hrow : RowBelow a b alo blo bhi (i + 1) nj) (hi : i < ahi) :
    ∀ (l : List Nat) (best : Nat × Nat × Nat),
      GoodT a b alo ahi blo bhi best →
      GoodT a b alo ahi blo bhi (l.foldl (bestUpd nj i) best) := by
  intro l
  induction l with
  | nil => intro best hb; exact hb
  | cons j l ih =>
    intro best hb
    rw [List.foldl_cons]
    apply ih
    unfold bestUpd
    by_cases hlt : best.2.2 < nj j
    · rw [if_pos hlt, goodT_iff]
      have hne : nj j ≠ 0 := by omega
      obtain ⟨k1, k2, k3, k4, k5, k6⟩ := hrow j hne
      exact ⟨by omega, by omega, by omega, by omega, k6⟩
    · rw [if_neg hlt]
      exact hb

lemma flmLoop_ok (a b : PyStr) (alo ahi blo bhi : Nat) :
    ∀ (n i : Nat) (st : FlmState), alo ≤ i → i + n = ahi →
      RowBelow a b alo blo bhi i st.j2len →
      GoodT a b alo ahi blo bhi (st.besti, st.bestj, st.bestsize) →
      GoodT a b alo ahi blo bhi
        ((flmLoop a b blo bhi i n st).besti, (flmLoop a b blo bhi i n st).bestj,
          (flmLoop a b blo bhi i n st).bestsize) := by
  intro n
  induction n with
  | zero => intro i st hi he hrow hbest; exact hbest
  | succ n ih =>
    intro i st hi he hrow hbest
    rw [flmLoop]
    apply ih (i + 1) (flmStep a b blo bhi st i) (by omega) (by omega)
    · exact njRow_ok a b alo blo bhi st.j2len i hi hrow
    · exact bestFold_ok a b alo ahi blo bhi i (njRow a b blo bhi st.j2len i)
        (njRow_ok a b alo blo bhi st.j2len i hi hrow) (by omega)
        (b2jWin b (a.getD i 0) blo bhi) (st.besti, st.bestj, st.bestsize) hbest

lemma extLeft_ok (a b : PyStr) (alo ahi blo bhi : Nat) :
    ∀ (fuel : Nat) (r : Nat × Nat × Nat), GoodT a b alo ahi blo bhi r →
      GoodT a b alo ahi blo bhi (extLeft a b alo blo fuel r) := by
  intro fuel
  induction fuel with
  | zero => intro r h; exact h
  | succ fuel ih =>
    intro r h
    obtain ⟨bi, bj, bs⟩ := r
    rw [goodT_iff] at h
    obtain ⟨h1, h2, h3, h4, h5⟩ := h
    rw [extLeft]
    by_cases hc : alo < bi ∧ blo < bj ∧ bjunk (b.getD (bj - 1) 0) = false ∧
        a.getD (bi - 1) 0 = b.getD (bj - 1) 0
    · rw [if_pos hc]
      apply ih
      rw [goodT_iff]
      refine ⟨by omega, by omega, by omega, by omega, ?_⟩
      intro t ht
      cases t with
      | zero => simpa using hc.2.2.2
      | succ t =>
        have e1 : bi - 1 + (t + 1) = bi + t := by omega
        have e2 : bj - 1 + (t + 1) = bj + t := by omega
        rw [e1, e2]
        exact h5 t (by omega)
    · rw [if_neg hc, goodT_iff]
      exact ⟨h1, h2, h3, h4, h5⟩

lemma extRight_ok (a b : PyStr) (alo ahi blo bhi : Nat) :
    ∀ (fuel : Nat) (r : Nat × Nat × Nat), GoodT a b alo ahi blo bhi r →
      GoodT a b alo ahi blo bhi (extRight a b ahi bhi fuel r) := by
  intro fuel
  induction fuel with
  | zero => intro r h; exact h
  | succ fuel ih =>
    intro r h
    obtain ⟨bi, bj, bs⟩ := r
    rw [goodT_iff] at h
    obtain ⟨h1, h2, h3, h4, h5⟩ := h
    rw [extRight]
    by_cases hc : bi + bs < ahi ∧ bj + bs < bhi ∧ bjunk (b.getD (bj + bs) 0) = false ∧
        a.getD (bi + bs) 0 = b.getD (bj + bs) 0
    · rw [if_pos hc]
      apply ih
      rw [goodT_iff]
      refine ⟨h1, by omega, h3, by omega, ?_⟩
      intro t ht
      by_cases htb : t < bs
      · exact h5 t htb
      · have ht1 : t = bs := by omega
        subst ht1
        exact hc.2.2.2
    · rw [if_neg hc, goodT_iff]
      exact ⟨h1, h2, h3, h4, h5⟩

lemma extLeftJunk_eq (a b : PyStr) (alo blo : Nat) (fuel : Nat)
    (r : Nat × Nat × Nat) : extLeftJunk a b alo blo fuel r = r := by
  cases fuel with
  | zero => rfl
  | succ fuel =>
    obtain ⟨bi, bj, bs⟩ := r
    rw [extLeftJunk, if_neg]
    intro h
    simpa [bjunk] using h.2.2.1

lemma extRightJunk_eq (a b : PyStr) (ahi bhi : Nat) (fuel : Nat)
    (r : Nat × Nat × Nat) : extRightJunk a b ahi bhi fuel r = r := by
  cases fuel with
  | zero => rfl
  | succ fuel =>
    obtain ⟨bi, bj, bs⟩ := r
    rw [extRightJunk, if_neg]
    intro h
    simpa [bjunk] using h.2.2.1

lemma findLongestMatch_good (a b : PyStr) (alo ahi blo bhi : Nat)
    (h1 : alo ≤ ahi) (h2 : blo ≤ bhi) :
    GoodT a b alo ahi blo bhi (findLongestMatch a b alo ahi blo bhi) := by
  have hst := flmLoop_ok a b alo ahi blo bhi (ahi - alo) alo
    ⟨fun _ => 0, alo, blo, 0⟩ le_rfl (by omega)
    (by intro j hj; exact absurd rfl hj)
    ⟨le_rfl, by simpa using h1, le_rfl, by simpa using h2,
      by intro t ht; exact absurd ht (Nat.not_lt_zero t)⟩
  have h3 := extLeft_ok a b alo ahi blo bhi
    (flmLoop a b blo bhi alo (ahi - alo) ⟨fun _ => 0, alo, blo, 0⟩).besti _ hst
  have h4 := extRight_ok a b alo ahi blo bhi ahi _ h3
  simp only [findLongestMatch]
  rw [extRightJunk_eq, extLeftJunk_eq]
  exact h4

/-! ### The matching-blocks total is bounded by the lengths and by the
multiset intersection -/

lemma matchAt_slice_eq (a b : PyStr) {i j k : Nat} (hm : MatchAt a b i j k)
    (ha : i + k ≤ a.length) (hb : j + k ≤ b.length) :
    (a.drop i).take k = (b.drop j).take k := by
  apply List.ext_getElem
  · simp only [List.length_take, List.length_drop]
    omega
  · intro t h1 h2
    have ht : t < k := by
      simp only [List.length_take, List.length_drop] at h1
      omega
    have hta : i + t < a.length := by omega
    have htb : j + t < b.length := by omega
    rw [List.getElem_take, List.getElem_drop, List.getElem_take, List.getElem_drop]
    have hg := hm t ht
    rw [List.getD_eq_getElem?_getD, List.getD_eq_getElem?_getD,
      List.getElem?_eq_getElem hta, List.getElem?_eq_getElem htb] at hg
    simpa using hg

lemma slice_split (x : PyStr) (p q r : Nat) (h1 : p ≤ q) (h2 : q ≤ r) :
    (x.drop p).take (r - p) = (x.drop p).take (q - p) ++ (x.drop q).take (r - q) := by
  have e : r - p = (q - p) + (r - q) := by omega
  rw [e, List.take_add]
  congr 2
  rw [List.drop_drop]
  congr 1
  omega

lemma mbSum_succ (a b : PyStr) (fuel alo ahi blo bhi : Nat) :
    mbSum a b (fuel + 1) alo ahi blo bhi =
      if (findLongestMatch a b alo ahi blo bhi).2.2 = 0 then 0
      else
        (findLongestMatch a b alo ahi blo bhi).2.2 +
          (if alo < (findLongestMatch a b alo ahi blo bhi).1 ∧
              blo < (findLongestMatch a b alo ahi blo bhi).2.1 then
            mbSum a b fuel alo (findLongestMatch a b alo ahi blo bhi).1 blo
              (findLongestMatch a b alo ahi blo bhi).2.1
          else 0) +
          (if (findLongestMatch a b alo ahi blo bhi).1 +
                (findLongestMatch a b alo ahi blo bhi).2.2 < ahi ∧
              (findLongestMatch a b alo ahi blo bhi).2.1 +
                (findLongestMatch a b alo ahi blo bhi).2.2 < bhi then
            mbSum a b fuel
              ((findLongestMatch a b alo ahi blo bhi).1 +
                (findLongestMatch a b alo ahi blo bhi).2.2) ahi
              ((findLongestMatch a b alo ahi blo bhi).2.1 +
                (findLongestMatch a b alo ahi blo bhi).2.2) bhi
          else 0) := rfl

/-- The matching blocks pair off equal elements drawn from disjoint
windows: there is a common sub-multiset of both window slices whose size
is the matching total. -/
lemma mbSum_witness (a b : PyStr) :
    ∀ (fuel alo ahi blo bhi : Nat), alo ≤ ahi → ahi ≤ a.length →
      blo ≤ bhi → bhi ≤ b.length →
      ∃ m : Multiset Nat,
        m ≤ (((a.drop alo).take (ahi - alo) : List Nat) : Multiset Nat) ∧
        m ≤ (((b.drop blo).take (bhi - blo) : List Nat) : Multiset Nat) ∧
        Multiset.card m = mbSum a b fuel alo ahi blo bhi := by
  intro fuel
  induction fuel with
  | zero =>
    intro alo ahi blo bhi h1 h2 h3 h4
    exact ⟨0, Multiset.zero_le _, Multiset.zero_le _, rfl⟩
  | succ fuel ih =>
    intro alo ahi blo bhi h1 h2 h3 h4
    obtain ⟨g1, g2, g3, g4, g5⟩ := findLongestMatch_good a b alo ahi blo bhi h1 h3
    rw [mbSum_succ]
    by_cases hk : (findLongestMatch a b alo ahi blo bhi).2.2 = 0
    · rw [if_pos hk]
      exact ⟨0, Multiset.zero_le _, Multiset.zero_le _, rfl⟩
    · rw [if_neg hk]
      set i := (findLongestMatch a b alo ahi blo bhi).1 with hui
      set j := (findLongestMatch a b alo ahi blo bhi).2.1 with huj
      set k := (findLongestMatch a b alo ahi blo bhi).2.2 with huk
      have hleft : ∃ mL : Multiset Nat,
          mL ≤ (((a.drop alo).take (i - alo) : List Nat) : Multiset Nat) ∧
          mL ≤ (((b.drop blo).take (j - blo) : List Nat) : Multiset Nat) ∧
          Multiset.card mL
            = (if alo < i ∧ blo < j then mbSum a b fuel alo i blo j else 0) := by
        by_cases hL : alo < i ∧ blo < j
        · rw [if_pos hL]
          exact ih alo i blo j (by omega) (by omega) (by omega) (by omega)
        · rw [if_neg hL]
          exact ⟨0, Multiset.zero_le _, Multiset.zero_le _, rfl⟩
      have hright : ∃ mR : Multiset Nat,
          mR ≤ (((a.drop (i + k)).take (ahi - (i + k)) : List Nat) : Multiset Nat) ∧
          mR ≤ (((b.drop (j + k)).take (bhi - (j + k)) : List Nat) : Multiset Nat) ∧
          Multiset.card mR
            = (if i + k < ahi ∧ j + k < bhi then
                mbSum a b fuel (i + k) ahi (j + k) bhi else 0) := by
        by_cases hR : i + k < ahi ∧ j + k < bhi
        · rw [if_pos hR]
          exact ih (i + k) ahi (j + k) bhi (by omega) h2 (by omega) h4
        · rw [if_neg hR]
          exact ⟨0, Multiset.zero_le _, Multiset.zero_le _, rfl⟩
      obtain ⟨mL, l1, l2, l3⟩ := hleft
      obtain ⟨mR, r1, r2, r3⟩ := hright
      have hmid_eq : (a.drop i).take k = (b.drop j).take k :=
        matchAt_slice_eq a b g5 (by omega) (by omega)
      have hmidcard :
          Multiset.card (((a.drop i).take k : List Nat) : Multiset Nat) = k := by
        rw [Multiset.coe_card, List.length_take, List.length_drop]
        omega
      refine ⟨mL + (((a.drop i).take k : List Nat) : Multiset Nat) + mR, ?_, ?_, ?_⟩
      · have e1 : (a.drop i).take (ahi - i)
            = (a.drop i).take k ++ (a.drop (i + k)).take (ahi - (i + k)) := by
          have e0 := slice_split a i (i + k) ahi (by omega) g2
          simpa using e0
        have hsplit : (a.drop alo).take (ahi - alo)
            = (a.drop alo).take (i - alo)
              ++ ((a.drop i).take k ++ (a.drop (i + k)).take (ahi - (i + k))) := by
          rw [slice_split a alo i ahi g1 (by omega), e1]
        rw [hsplit, ← Multiset.coe_add, ← Multiset.coe_add]
        have hstep := add_le_add (add_le_add l1
          (le_refl (((a.drop i).take k : List Nat) : Multiset Nat))) r1
        calc mL + (((a.drop i).take k : List Nat) : Multiset Nat) + mR
            ≤ ((((a.drop alo).take (i - alo) : List Nat) : Multiset Nat)
                + (((a.drop i).take k : List Nat) : Multiset Nat))
              + (((a.drop (i + k)).take (ahi - (i + k)) : List Nat) : Multiset Nat) :=
              hstep
          _ = (((a.drop alo).take (i - alo) : List Nat) : Multiset Nat)
              + ((((a.drop i).take k : List Nat) : Multiset Nat)
                + (((a.drop (i + k)).take (ahi - (i + k)) : List Nat) : Multiset Nat)) := by
              rw [add_assoc]
      · have e1 : (b.drop j).take (bhi - j)
            = (b.drop j).take k ++ (b.drop (j + k)).take (bhi - (j + k)) := by
          have e0 := slice_split b j (j + k) bhi (by omega) g4
          simpa using e0
        have hsplit : (b.drop blo).take (bhi - blo)
            = (b.drop blo).take (j - blo)
              ++ ((b.drop j).take k ++ (b.drop (j + k)).take (bhi - (j + k))) := by
          rw [slice_split b blo j bhi g3 (by omega), e1]
        rw [hsplit, ← Multiset.coe_add, ← Multiset.coe_add]
        have hmid2 : (((a.drop i).take k : List Nat) : Multiset Nat)
            ≤ (((b.drop j).take k : List Nat) : Multiset Nat) := by
          rw [hmid_eq]
        have hstep := add_le_add (add_le_add l2 hmid2) r2
        calc mL + (((a.drop i).take k : List Nat) : Multiset Nat) + mR
            ≤ ((((b.drop blo).take (j - blo) : List Nat) : Multiset Nat)
                + (((b.drop j).take k : List Nat) : Multiset Nat))
              + (((b.drop (j + k)).take (bhi - (j + k)) : List Nat) : Multiset Nat) :=
              hstep
          _ = (((b.drop blo).take (j - blo) : List Nat) : Multiset Nat)
              + ((((b.drop j).take k : List Nat) : Multiset Nat)
                + (((b.drop (j + k)).take (bhi - (j + k)) : List Nat) : Multiset Nat)) := by
              rw [add_assoc]
      · rw [Multiset.card_add, Multiset.card_add, l3, hmidcard, r3]
        omega

/-- The ratio numerator of `SequenceMatcher.ratio()` is at most either
length and at most the multiset-intersection size (which is why the
`quick_ratio` guards never reject a candidate whose true ratio clears
the cutoff). -/
lemma ratE_fst_le (a b : PyStr) :
    (ratE a b).1 ≤ min a.length b.length ∧
    (ratE a b).1 ≤ Multiset.card ((a : Multiset Nat) ∩ (b : Multiset Nat)) := by
  obtain ⟨m, h1, h2, h3⟩ := mbSum_witness a b (a.length + b.length) 0 a.length 0
    b.length (Nat.zero_le _) le_rfl (Nat.zero_le _) le_rfl
  have ha : (a.drop 0).take (a.length - 0) = a := by simp
  have hb : (b.drop 0).take (b.length - 0) = b := by simp
  rw [ha] at h1
  rw [hb] at h2
  have hc : (ratE a b).1 = Multiset.card m := h3.symm
  constructor
  · rw [hc]
    refine le_min ?_ ?_
    · have := Multiset.card_le_card h1
      simpa [Multiset.coe_card] using this
    · have := Multiset.card_le_card h2
      simpa [Multiset.coe_card] using this
  · rw [hc]
    exact Multiset.card_le_card (Multiset.le_inter h1 h2)

/-! ### The exact pair comparisons agree with the rational ratio
values -/

lemma ratVal_mk (m T : Nat) :
    ratVal (m, T) = if T = 0 then 1 else 2 * (m : ℚ) / (T : ℚ) := rfl

lemma cutoffLe_mk (cn cd m T : Nat) :
    cutoffLe cn cd (m, T)
      = if T = 0 then decide (cn ≤ cd) else decide (cn * T ≤ cd * (2 * m)) := rfl

lemma scoreLt_mk (m1 T1 m2 T2 : Nat) :
    scoreLt (m1, T1) (m2, T2)
      = if T1 = 0 then (if T2 = 0 then false else decide (T2 < 2 * m2))
        else if T2 = 0 then decide (2 * m1 < T1)
        else decide (2 * m1 * T2 < 2 * m2 * T1) := rfl

lemma scoreEq_mk (m1 T1 m2 T2 : Nat) :
    scoreEq (m1, T1) (m2, T2)
      = if T1 = 0 then (if T2 = 0 then true else decide (2 * m2 = T2))
        else if T2 = 0 then decide (2 * m1 = T1)
        else decide (2 * m1 * T2 = 2 * m2 * T1) := rfl

lemma ratVal_mono (m1 m2 T : Nat) (h : m1 ≤ m2) :
    ratVal (m1, T) ≤ ratVal (m2, T) := by
  rw [ratVal_mk, ratVal_mk]
  by_cases hT : T = 0
  · simp [hT]
  · rw [if_neg hT, if_neg hT]
    have hT2 : (0 : ℚ) < (T : ℚ) := by
      exact_mod_cast Nat.pos_of_ne_zero hT
    rw [div_le_div_iff hT2 hT2]
    have hm : (m1 : ℚ) ≤ (m2 : ℚ) := by exact_mod_cast h
    nlinarith

lemma seqRatio_le_quickRat (a b : PyStr) : seqRatio a b ≤ quickRat a b :=
  ratVal_mono (ratE a b).1 (Multiset.card ((a : Multiset Nat) ∩ (b : Multiset Nat)))
    (a.length + b.length) (ratE_fst_le a b).2

lemma seqRatio_le_realQuickRat (a b : PyStr) : seqRatio a b ≤ realQuickRat a b :=
  ratVal_mono (ratE a b).1 (min a.length b.length)
    (a.length + b.length) (ratE_fst_le a b).1

lemma cutoffLe_iff (cn cd : Nat) (hcd : 0 < cd) (p : Nat × Nat) :
    cutoffLe cn cd p = true ↔ (cn : ℚ) / (cd : ℚ) ≤ ratVal p := by
  obtain ⟨m, T⟩ := p
  rw [cutoffLe_mk, ratVal_mk]
  have hcd2 : (0 : ℚ) < (cd : ℚ) := by exact_mod_cast hcd
  by_cases hT : T = 0
  · rw [if_pos hT, if_pos hT]
    simp only [decide_eq_true_eq]
    rw [div_le_one hcd2]
    exact ⟨fun h => by exact_mod_cast h, fun h => by exact_mod_cast h⟩
  · rw [if_neg hT, if_neg hT]
    simp only [decide_eq_true_eq]
    have hT2 : (0 : ℚ) < (T : ℚ) := by
      exact_mod_cast Nat.pos_of_ne_zero hT
    rw [div_le_div_iff hcd2 hT2]
    constructor
    · intro h
      have h2 : ((cn * T : Nat) : ℚ) ≤ ((cd * (2 * m) : Nat) : ℚ) := by
        exact_mod_cast h
      push_cast at h2
      linarith
    · intro h
      have h2 : ((cn * T : Nat) : ℚ) ≤ ((cd * (2 * m) : Nat) : ℚ) := by
        push_cast
        linarith
      exact_mod_cast h2

lemma scoreLt_iff (p q : Nat × Nat) :
    scoreLt p q = true ↔ ratVal p < ratVal q := by
  obtain ⟨m1, T1⟩ := p
  obtain ⟨m2, T2⟩ := q
  rw [scoreLt_mk, ratVal_mk, ratVal_mk]
  by_cases h1 : T1 = 0 <;> by_cases h2 : T2 = 0
  · simp [h1, h2]
  · rw [if_pos h1, if_neg h2, if_pos h1, if_neg h2]
    simp only [decide_eq_true_eq]
    have hT2 : (0 : ℚ) < (T2 : ℚ) := by exact_mod_cast Nat.pos_of_ne_zero h2
    rw [one_lt_div hT2]
    constructor
    · intro h
      have h3 : ((T2 : Nat) : ℚ) < ((2 * m2 : Nat) : ℚ) := by exact_mod_cast h
      push_cast at h3
      linarith
    · intro h
      have h3 : ((T2 : Nat) : ℚ) < ((2 * m2 : Nat) : ℚ) := by push_cast; linarith
      exact_mod_cast h3
  · rw [if_neg h1, if_pos h2, if_neg h1, if_pos h2]
    simp only [decide_eq_true_eq]
    have hT1 : (0 : ℚ) < (T1 : ℚ) := by exact_mod_cast Nat.pos_of_ne_zero h1
    rw [div_lt_one hT1]
    constructor
    · intro h
      have h3 : ((2 * m1 : Nat) : ℚ) < ((T1 : Nat) : ℚ) := by exact_mod_cast h
      push_cast at h3
      linarith
    · intro h
      have h3 : ((2 * m1 : Nat) : ℚ) < ((T1 : Nat) : ℚ) := by push_cast; linarith
      exact_mod_cast h3
  · rw [if_neg h1, if_neg h2, if_neg h1, if_neg h2]
    simp only [decide_eq_true_eq]
    have hT1 : (0 : ℚ) < (T1 : ℚ) := by exact_mod_cast Nat.pos_of_ne_zero h1
    have hT2 : (0 : ℚ) < (T2 : ℚ) := by exact_mod_cast Nat.pos_of_ne_zero h2
    rw [div_lt_div_iff hT1 hT2]
    constructor
    · intro h
      have h3 : ((2 * m1 * T2 : Nat) : ℚ) < ((2 * m2 * T1 : Nat) : ℚ) := by
        exact_mod_cast h
      push_cast at h3
      linarith
    · intro h
      have h3 : ((2 * m1 * T2 : Nat) : ℚ) < ((2 * m2 * T1 : Nat) : ℚ) := by
        push_cast
        linarith
      exact_mod_cast h3

lemma scoreEq_iff (p q : Nat × Nat) :
    scoreEq p q = true ↔ ratVal p = ratVal q := by
  obtain ⟨m1, T1⟩ := p
  obtain ⟨m2, T2⟩ := q
  rw [scoreEq_mk, ratVal_mk, ratVal_mk]
  by_cases h1 : T1 = 0 <;> by_cases h2 : T2 = 0
  · simp [h1, h2]
  · rw [if_pos h1, if_neg h2, if_pos h1, if_neg h2]
    simp only [decide_eq_true_eq]
    have hT2 : (0 : ℚ) < (T2 : ℚ) := by exact_mod_cast Nat.pos_of_ne_zero h2
    constructor
    · intro h
      rw [eq_comm, div_eq_one_iff_eq hT2.ne']
      have h3 : ((2 * m2 : Nat) : ℚ) = ((T2 : Nat) : ℚ) := by exact_mod_cast h
      push_cast at h3
      linarith
    · intro h
      rw [eq_comm, div_eq_one_iff_eq hT2.ne'] at h
      have h3 : ((2 * m2 : Nat) : ℚ) = ((T2 : Nat) : ℚ) := by push_cast; linarith
      exact_mod_cast h3
  · rw [if_neg h1, if_pos h2, if_neg h1, if_pos h2]
    simp only [decide_eq_true_eq]
    have hT1 : (0 : ℚ) < (T1 : ℚ) := by exact_mod_cast Nat.pos_of_ne_zero h1
    rw [div_eq_one_iff_eq hT1.ne']
    constructor
    · intro h
      have h3 : ((2 * m1 : Nat) : ℚ) = ((T1 : Nat) : ℚ) := by exact_mod_cast h
      push_cast at h3
      linarith
    · intro h
      have h3 : ((2 * m1 : Nat) : ℚ) = ((T1 : Nat) : ℚ) := by push_cast; linarith
      exact_mod_cast h3
  · rw [if_neg h1, if_neg h2, if_neg h1, if_neg h2]
    simp only [decide_eq_true_eq]
    have hT1 : (0 : ℚ) < (T1 : ℚ) := by exact_mod_cast Nat.pos_of_ne_zero h1
    have hT2 : (0 : ℚ) < (T2 : ℚ) := by exact_mod_cast Nat.pos_of_ne_zero h2
    rw [div_eq_div_iff hT1.ne' hT2.ne']
    constructor
    · intro h
      have h3 : ((2 * m1 * T2 : Nat) : ℚ) = ((2 * m2 * T1 : Nat) : ℚ) := by
        exact_mod_cast h
      push_cast at h3
      linarith
    · intro h
      have h3 : ((2 * m1 * T2 : Nat) : ℚ) = ((2 * m2 * T1 : Nat) : ℚ) := by
        push_cast
        linarith
      exact_mod_cast h3

/-! ### Order facts about the `(score, name)` ranking -/

lemma strLt_irrefl (s : PyStr) : strLt s s = false := by
  induction s with
  | nil => rfl
  | cons c s ih => simp [strLt, ih]

lemma strLt_trans (s : PyStr) : ∀ t u : PyStr,
    strLt s t = true → strLt t u = true → strLt s u = true := by
  induction s with
  | nil =>
    intro t u h1 h2
    cases t with
    | nil => cases h1
    | cons d t =>
      cases u with
      | nil => cases h2
      | cons e u => rfl
  | cons c s ih =>
    intro t u h1 h2
    cases t with
    | nil => cases h1
    | cons d t =>
      cases u with
      | nil => cases h2
      | cons e u =>
        simp only [strLt] at h1 h2 ⊢
        by_cases hcd : c < d
        · rw [if_pos hcd] at h1
          by_cases hde : d < e
          · rw [if_pos (by omega : c < e)]
          · rw [if_neg hde] at h2
            by_cases hed : e < d
            · rw [if_pos hed] at h2
              cases h2
            · rw [if_pos (by omega : c < e)]
        · rw [if_neg hcd] at h1
          by_cases hdc : d < c
          · rw [if_pos hdc] at h1
            cases h1
          · rw [if_neg hdc] at h1
            by_cases hde : d < e
            · rw [if_pos (by omega : c < e)]
            · rw [if_neg hde] at h2
              by_cases hed : e < d
              · rw [if_pos hed] at h2
                cases h2
              · rw [if_neg hed] at h2
                rw [if_neg (by omega : ¬c < e), if_neg (by omega : ¬e < c)]
                exact ih t u h1 h2

lemma strLt_conn (s : PyStr) : ∀ t : PyStr,
    strLt s t = false → strLt t s = false → s = t := by
  induction s with
  | nil =>
    intro t h1 h2
    cases t with
    | nil => rfl
    | cons d t => cases h1
  | cons c s ih =>
    intro t h1 h2
    cases t with
    | nil => cases h2
    | cons d t =>
      simp only [strLt] at h1 h2
      by_cases hcd : c < d
      · rw [if_pos hcd] at h1
        cases h1
      · by_cases hdc : d < c
        · rw [if_pos hdc] at h2
          cases h2
        · rw [if_neg hcd, if_neg hdc] at h1
          rw [if_neg hdc, if_neg hcd] at h2
          have hce : c = d := by omega
          rw [hce, ih t h1 h2]

lemma strLt_negtrans (s t u : PyStr) (h1 : strLt s t = false)
    (h2 : strLt t u = false) : strLt s u = false := by
  by_contra h
  rw [Bool.not_eq_false] at h
  cases hut : strLt u t with
  | false =>
    rw [strLt_conn t u h2 hut] at h1
    rw [h1] at h
    cases h
  | true =>
    have := strLt_trans s u t h hut
    rw [this] at h1
    cases h1

lemma pairLt_iff (p q : (Nat × Nat) × PyStr) :
    pairLt p q = true ↔
      ratVal p.1 < ratVal q.1 ∨
        (ratVal p.1 = ratVal q.1 ∧ strLt p.2 q.2 = true) := by
  unfold pairLt
  by_cases h1 : scoreLt p.1 q.1 = true
  · rw [if_pos h1]
    constructor
    · intro _
      exact Or.inl ((scoreLt_iff _ _).mp h1)
    · intro _
      rfl
  · rw [if_neg h1]
    by_cases h2 : scoreEq p.1 q.1 = true
    · rw [if_pos h2]
      constructor
      · intro h
        exact Or.inr ⟨(scoreEq_iff _ _).mp h2, h⟩
      · intro h
        rcases h with h | h
        · exact absurd ((scoreLt_iff _ _).mpr h) h1
        · exact h.2
    · rw [if_neg h2]
      constructor
      · intro h
        cases h
      · intro h
        rcases h with h | h
        · exact absurd ((scoreLt_iff _ _).mpr h) h1
        · exact absurd ((scoreEq_iff _ _).mpr h.1) h2

lemma pairLt_irrefl (p : (Nat × Nat) × PyStr) : pairLt p p = false := by
  by_contra h
  rw [Bool.not_eq_false, pairLt_iff] at h
  rcases h with h | ⟨_, h⟩
  · exact absurd h (lt_irrefl _)
  · rw [strLt_irrefl] at h
    cases h

lemma pairLt_asymm (p q : (Nat × Nat) × PyStr) (h : pairLt p q = true) :
    pairLt q p = false := by
  rw [pairLt_iff] at h
  by_contra hq
  rw [Bool.not_eq_false, pairLt_iff] at hq
  rcases h with h | ⟨he, hs⟩ <;> rcases hq with hq | ⟨hqe, hqs⟩
  · exact absurd hq (not_lt.mpr h.le)
  · exact absurd hqe (ne_of_lt (lt_of_lt_of_le h (le_of_eq rfl))).symm
  · exact absurd hq (not_lt.mpr (le_of_eq he))
  · have := strLt_trans _ _ _ hs hqs
    rw [strLt_irrefl] at this
    cases this

lemma pairLt_negtrans (p q r : (Nat × Nat) × PyStr) (h1 : pairLt p q = false)
    (h2 : pairLt q r = false) : pairLt p r = false := by
  by_contra h
  rw [Bool.not_eq_false, pairLt_iff] at h
  have h1' : ¬(ratVal p.1 < ratVal q.1 ∨
      (ratVal p.1 = ratVal q.1 ∧ strLt p.2 q.2 = true)) := by
    rw [← pairLt_iff, h1]
    simp
  have h2' : ¬(ratVal q.1 < ratVal r.1 ∨
      (ratVal q.1 = ratVal r.1 ∧ strLt q.2 r.2 = true)) := by
    rw [← pairLt_iff, h2]
    simp
  push_neg at h1' h2'
  obtain ⟨h1a, h1b⟩ := h1'
  obtain ⟨h2a, h2b⟩ := h2'
  rcases h with h | ⟨he, hs⟩
  · linarith [h1a, h2a]
  · have e1 : ratVal q.1 ≤ ratVal p.1 := h1a
    have e2 : ratVal r.1 ≤ ratVal q.1 := h2a
    have eq1 : ratVal p.1 = ratVal q.1 := by linarith [le_of_eq he, le_of_eq he.symm]
    have eq2 : ratVal q.1 = ratVal r.1 := by linarith [le_of_eq he, le_of_eq he.symm]
    have hs1 := h1b eq1
    have hs2 := h2b eq2
    have := strLt_negtrans p.2 q.2 r.2 (by simpa using hs1) (by simpa using hs2)
    rw [hs] at this
    cases this

lemma insDesc_headMax (x : (Nat × Nat) × PyStr) (l : List ((Nat × Nat) × PyStr))
    (hl : HeadMax l) : HeadMax (insDesc x l) := by
  cases l with
  | nil =>
    intro h hh y hy
    simp only [insDesc, List.head?_cons, Option.some.injEq] at hh
    simp only [insDesc, List.mem_singleton] at hy
    rw [← hh, hy]
    exact pairLt_irrefl x
  | cons z l =>
    intro h hh y hy
    rw [insDesc] at hh hy
    by_cases hp : pairLt x z = true
    · rw [if_pos hp] at hh hy
      simp only [List.head?_cons, Option.some.injEq] at hh
      rw [← hh]
      rcases List.mem_cons.mp hy with rfl | hy2
      · exact pairLt_irrefl _
      · rcases mem_insDesc.mp hy2 with rfl | hy3
        · exact pairLt_asymm _ _ hp
        · exact hl z rfl y (List.mem_cons_of_mem _ hy3)
    · rw [if_neg hp] at hh hy
      simp only [List.head?_cons, Option.some.injEq] at hh
      rw [← hh]
      rcases List.mem_cons.mp hy with rfl | hy2
      · exact pairLt_irrefl _
      rcases List.mem_cons.mp hy2 with rfl | hy3
      · simpa using hp
      · exact pairLt_negtrans x z y (by simpa using hp)
          (hl z rfl y (List.mem_cons_of_mem _ hy3))

lemma sortDesc_headMax (l : List ((Nat × Nat) × PyStr)) : HeadMax (sortDesc l) := by
  induction l with
  | nil =>
    intro h hh y hy
    cases hh
  | cons x l ih =>
    exact insDesc_headMax x (sortDesc l) ih

/-! ### Claim about the fuzzy tier -/

/-- Branch reduction: when the device list is non-empty, the exact tier
misses and no device contains the query as a substring,
`find_closest_device` returns the head of the `get_close_matches`
result. -/
lemma find_closest_device_fuzzy (q : PyStr) (D : List PyStr)
    (hne : D.isEmpty = false)
    (hfind : D.find? (fun d => lower d == lower q) = none)
    (hfil : D.filter (fun d => decide (lower q <:+: lower d)) = []) :
    find_closest_device q D = (getCloseMatches q D 3 3 10).head? := by
  rw [find_closest_device_eq, hne, hfind, hfil]
  simp

lemma head?_take {α : Type} (n : Nat) (l : List α) (hn : 0 < n) :
    (l.take n).head? = l.head? := by
  cases l with
  | nil => simp
  | cons a t =>
    cases n with
    | zero => omega
    | succ n => rfl

lemma getCloseMatches_eq (word : PyStr) (P : List PyStr) (n cn cd : Nat) :
    getCloseMatches word P n cn cd
      = ((sortDesc (P.filterMap (fun x =>
          if cutoffLe cn cd (rqrE x word) ∧ cutoffLe cn cd (qrE x word) ∧
              cutoffLe cn cd (ratE x word) then
            some (ratE x word, x)
          else none))).take n).map Prod.snd := rfl

/-- The three-ratio guard chain of `get_close_matches` accepts a
candidate exactly when its true `ratio()` clears the cutoff `0.3` (the
two quick ratios are upper bounds of the true ratio). -/
lemma guard_iff (d q : PyStr) :
    (cutoffLe 3 10 (rqrE d q) = true ∧ cutoffLe 3 10 (qrE d q) = true ∧
        cutoffLe 3 10 (ratE d q) = true) ↔ (3 / 10 : ℚ) ≤ seqRatio d q := by
  have hc : ((3 : Nat) : ℚ) / ((10 : Nat) : ℚ) = (3 / 10 : ℚ) := by norm_num
  constructor
  · intro h
    have h2 := (cutoffLe_iff 3 10 (by norm_num) (ratE d q)).mp h.2.2
    rw [hc] at h2
    exact h2
  · intro h
    refine ⟨?_, ?_, ?_⟩
    · rw [cutoffLe_iff 3 10 (by norm_num), hc]
      exact le_trans h (seqRatio_le_realQuickRat d q)
    · rw [cutoffLe_iff 3 10 (by norm_num), hc]
      exact le_trans h (seqRatio_le_quickRat d q)
    · rw [cutoffLe_iff 3 10 (by norm_num), hc]
      exact h

/-- C3: when the exact and substring tiers both miss, the resolver runs
`difflib.get_close_matches(name, devices, n=3, cutoff=0.3)`: it returns
`None` when every device's similarity ratio to the query is below
`3 / 10`; it returns a device whenever some device's ratio reaches
`3 / 10`; and any returned device is a member of the list whose ratio
reaches the cutoff and is maximal among all devices that reach the
cutoff.  Concretely, `"HomePood"` resolves to `"HomePod Mini"` and
`"Xbox Controller"` resolves to `None` against `["HomePod Mini"]`. -/
theorem resolver_fuzzy_tier (q : PyStr) (D : List PyStr)
    (hex : ∀ d ∈ D, lower d ≠ lower q)
    (hsub : ∀ d ∈ D, ¬ lower q <:+: lower d) :
    ((∀ d ∈ D, seqRatio d q < 3 / 10) → find_closest_device q D = none) ∧
    ((∃ d ∈ D, (3 / 10 : ℚ) ≤ seqRatio d q) →
      ∃ m, find_closest_device q D = some m) ∧
    (∀ m, find_closest_device q D = some m →
      m ∈ D ∧ (3 / 10 : ℚ) ≤ seqRatio m q ∧
        ∀ d ∈ D, (3 / 10 : ℚ) ≤ seqRatio d q → seqRatio d q ≤ seqRatio m q) ∧
    find_closest_device (S "HomePood") [S "HomePod Mini"] = some (S "HomePod Mini") ∧
    find_closest_device (S "Xbox Controller") [S "HomePod Mini"] = none := by
  by_cases hD : D = []
  · subst hD
    refine ⟨fun _ => rfl, ?_, ?_, by decide, by decide⟩
    · rintro ⟨d, hd, _⟩
      cases hd
    · intro m hm
      cases hm
  · have hne : D.isEmpty = false := by
      cases D with
      | nil => exact absurd rfl hD
      | cons x t => rfl
    have hfind : D.find? (fun d => lower d == lower q) = none := by
      rw [List.find?_eq_none]
      intro x hx
      simpa using hex x hx
    have hfil : D.filter (fun d => decide (lower q <:+: lower d)) = [] := by
      rw [List.filter_eq_nil_iff]
      intro d hd
      simpa using hsub d hd
    have hred := find_closest_device_fuzzy q D hne hfind hfil
    rw [getCloseMatches_eq, List.head?_map, head?_take 3 _ (by norm_num)] at hred
    set R := D.filterMap (fun x =>
      if cutoffLe 3 10 (rqrE x q) ∧ cutoffLe 3 10 (qrE x q) ∧
          cutoffLe 3 10 (ratE x q) then
        some (ratE x q, x)
      else none) with hR
    refine ⟨?_, ?_, ?_, by decide, by decide⟩
    · intro hall
      have hnil : R = [] := by
        rw [hR, List.filterMap_eq_nil_iff]
        intro x hx
        rw [if_neg]
        intro hcontra
        exact absurd ((guard_iff x q).mp hcontra) (not_le.mpr (hall x hx))
      rw [hred, hnil]
      rfl
    · rintro ⟨d, hd, hdc⟩
      have hmem : (ratE d q, d) ∈ R := by
        rw [hR, List.mem_filterMap]
        exact ⟨d, hd, by rw [if_pos ((guard_iff d q).mpr hdc)]⟩
      have hmem2 := mem_sortDesc.mpr hmem
      cases hs : sortDesc R with
      | nil =>
        rw [hs] at hmem2
        cases hmem2
      | cons p t =>
        refine ⟨p.2, ?_⟩
        rw [hred, hs]
        rfl
    · intro m hm
      rw [hred] at hm
      cases hs : sortDesc R with
      | nil =>
        rw [hs] at hm
        cases hm
      | cons p t =>
        rw [hs] at hm
        have hpm : p.2 = m := by simpa using hm
        have hpR : p ∈ sortDesc R := by
          rw [hs]
          exact List.mem_cons_self p t
        have hpR2 := mem_sortDesc.mp hpR
        rw [hR, List.mem_filterMap] at hpR2
        obtain ⟨x, hx, hxe⟩ := hpR2
        by_cases hg : cutoffLe 3 10 (rqrE x q) = true ∧ cutoffLe 3 10 (qrE x q) = true ∧
            cutoffLe 3 10 (ratE x q) = true
        · rw [if_pos hg] at hxe
          injection hxe with hxe
          have hx2 : x = m := by
            rw [← hpm, ← hxe]
          subst hx2
          have hp1 : p.1 = ratE x q := by rw [← hxe]
          refine ⟨hx, (guard_iff x q).mp hg, ?_⟩
          intro d hd hdc
          have hdm : (ratE d q, d) ∈ R := by
            rw [hR, List.mem_filterMap]
            exact ⟨d, hd, by rw [if_pos ((guard_iff d q).mpr hdc)]⟩
          have hdm2 := mem_sortDesc.mpr hdm
          have hmax := sortDesc_headMax R p (by rw [hs]; rfl) (ratE d q, d) hdm2
          by_contra hlt
          push_neg at hlt
          have hlt2 : pairLt p (ratE d q, d) = true := by
            rw [pairLt_iff]
            left
            rw [hp1]
            exact hlt
          rw [hlt2] at hmax
          cases hmax
        · rw [if_neg hg] at hxe
          cases hxe

/-- C3 (witness): concrete runs through the fuzzy tier, with the
exact-tier and substring-tier hypotheses discharged by computation. -/
theorem resolver_fuzzy_tier_witness :
    find_closest_device (S "HomePood") [S "HomePod Mini"] = some (S "HomePod Mini") ∧
    find_closest_device (S "Xbox Controller") [S "HomePod Mini"] = none := by
  have h := resolver_fuzzy_tier (S "HomePood") [S "HomePod Mini"]
    (by decide) (by decide)
  exact ⟨h.2.2.2.1, h.2.2.2.2⟩
